import Mathlib

/-!
Shallow embedding of `yt/frontends/halo_catalog/data_structures.py`:
the halo-catalog frontend classes `HaloCatalogParticleIndex`,
`HaloCatalogFile`, `HaloCatalogHDF5File` and `HaloCatalogDataset`.

Strings are modelled as `List Char`; real (numpy float64) coordinates are
idealised as exact rationals `ℚ`, so `np.mod` becomes exact floored
remainder; the filesystem / HDF5 layer is modelled as explicit data passed
to the functions that read it.
-/

set_option autoImplicit false

namespace HaloCatalog

/-- A row of a numpy `(N, 3)` position array: one coordinate per axis. -/
abbrev Vec3 := Fin 3 → ℚ

/-! ### String splitting (Python `str.split` / `str.rsplit` / `str.join`) -/

/-- Splits a character list at every occurrence of the separator `c`,
keeping empty pieces, exactly like Python `s.split(c)`:
`splitOnChar '.' "a.b" = ["a", "b"]`, `splitOnChar '.' "" = [""]`. -/
def splitOnChar (c : Char) : List Char → List (List Char)
  | [] => [[]]
  | x :: xs =>
    match splitOnChar c xs with
    | [] => [[]]
    | h :: t => if x = c then [] :: h :: t else (x :: h) :: t

/-- Joins pieces with the separator `c` between them, like Python
`c.join(pieces)`. -/
def joinChar (c : Char) : List (List Char) → List Char
  | [] => []
  | [x] => x
  | x :: xs => x ++ c :: joinChar c xs

/-- Python `s.rsplit(".", 2)`: split at the last at most two occurrences of
`"."`, leaving everything before the second-to-last dot joined together.
Modelled via the full split: when there are more than three pieces the
leading pieces are re-joined into a single head piece. -/
def rsplit2 (s : List Char) : List (List Char) :=
  let parts := splitOnChar '.' s
  if parts.length ≤ 3 then parts
  else joinChar '.' (parts.take (parts.length - 2)) :: parts.drop (parts.length - 2)

/-- The intermediate value the source calls the filename's stem:
`".".join(self.parameter_filename.rsplit(".", 2)[:-2])`
(`[:-2]` drops the last two pieces). -/
def stemOf (s : List Char) : List Char :=
  joinChar '.' ((rsplit2 s).dropLast.dropLast)

/-- `HaloCatalogDataset._parse_parameter_file`:
`self.filename_template = "%s.%%(num)s%s" % (prefix, self._suffix)`
with `_suffix = ".h5"`. -/
def filename_template_of (s : List Char) : List Char :=
  stemOf s ++ (".%(num)s.h5").data

/-- Python `%`-formatting of the filename template with a mapping
`\x7b"num": i\x7d`: every occurrence of the conversion `%(num)s` is replaced
by the decimal representation of `i`. -/
def pyFormatNum : List Char → Nat → List Char
  | [], _ => []
  | '%' :: '(' :: 'n' :: 'u' :: 'm' :: ')' :: 's' :: rest, i =>
      (Nat.repr i).data ++ pyFormatNum rest i
  | x :: rest, i => x :: pyFormatNum rest i

/-! ### The particle index (`HaloCatalogParticleIndex._setup_filenames`) -/

/-- The fields of the owning `HaloCatalogDataset` that
`_setup_filenames` reads. -/
structure DatasetState where
  parameter_filename : List Char
  filename_template : List Char
  file_count : Nat

/-- One constructed `ParticleFile` (`cls(self.dataset, self.io, filename,
file_id, range)`).  `total_particles` is the per-type particle-count
mapping of the file.  Modelled from the spec: the `ParticleFile` base
class is not part of the source excerpt; per the spec each chunk stores a
per-type count mapping populated from the chunk's header. -/
structure DataFile where
  filename : List Char
  file_id : Nat
  range : Option (Nat × Nat)
  total_particles : List (String × Nat)
deriving DecidableEq

/-- The index state produced by `_setup_filenames`: the `data_files` list
and the aggregated `total_particles` count. -/
structure IndexState where
  data_files : List DataFile
  total_particles : Nat
deriving DecidableEq

/-- `HaloCatalogParticleIndex._setup_filenames`.  `counts` models the
per-type particle counts the `ParticleFile` constructor records for a
given chunk filename (spec-modelled: the constructor reads them from the
chunk's header; the base class is outside the source excerpt). -/
def setup_filenames (ds : DatasetState) (counts : List Char → List (String × Nat)) :
    IndexState :=
  let data_files :=
    if ds.file_count > 1 then
      (List.range ds.file_count).map (fun i =>
        { filename := pyFormatNum ds.filename_template i
          file_id := i
          range := none
          total_particles := counts (pyFormatNum ds.filename_template i) : DataFile })
    else
      [{ filename := ds.parameter_filename
         file_id := 0
         range := none
         total_particles := counts ds.parameter_filename : DataFile }]
  { data_files := data_files
    total_particles :=
      (data_files.map (fun d => (d.total_particles.map Prod.snd).sum)).sum }

/-! ### Periodic correction and `HaloCatalogFile._get_particle_positions` -/

/-- `np.mod x w` on exact numbers: the floored remainder
`x - w * ⌊x / w⌋` (for a positive modulus the result lies in `[0, w)`,
matching numpy's sign-of-divisor convention). -/
def qmod (x w : ℚ) : ℚ := x - w * ⌊x / w⌋

/-- The periodic correction applied row-wise by
`_get_particle_positions`: `np.subtract(pos, dle)`, `np.mod(pos, dw)`,
`np.add(pos, dle)`, each elementwise per axis. -/
def correctPeriodic (dle dw : Vec3) (p : Vec3) : Vec3 :=
  fun i => qmod (p i - dle i) (dw i) + dle i

/-- The ways the read path can raise: a missing dictionary key
(`self.total_particles[ptype]`), the base class's `NotImplementedError`,
a numpy shape mismatch when filling a column, or an I/O failure. -/
inductive ReadErr where
  | keyError
  | notImplemented
  | broadcast
  | io
deriving DecidableEq

/-- `HaloCatalogFile._get_particle_positions`.  Dynamic dispatch to the
subclass's `_read_particle_positions` is modelled by passing its result
`raw` (`Except.error` = the read raised).  `start?` / `stop?` are
`self.start` / `self.end`; `Except.ok none` models returning Python
`None`. -/
def get_particle_positions (total_particles : List (String × Nat))
    (start? stop? : Option Nat) (dle dw : Vec3)
    (raw : Except ReadErr (List Vec3)) (ptype : String) :
    Except ReadErr (Option (List Vec3)) :=
  match total_particles.lookup ptype with
  | none => .error .keyError
  | some pcount =>
    if pcount = 0 then
      .ok none
    else
      match raw with
      | .error e => .error e
      | .ok pos =>
        let pos :=
          match start?, stop? with
          | some si, some ei => (pos.take ei).drop si
          | _, _ => pos
        .ok (some (pos.map (correctPeriodic dle dw)))

/-! ### `HaloCatalogHDF5File._read_particle_positions` -/

/-- The state of one HDF5 chunk as `_read_particle_positions` sees it:
the header's `num_halos` attribute, the three on-disk 1-D datasets
`particle_position_x` / `_y` / `_z` (indexed by axis `0,1,2` following
`enumerate("xyz")`), and the `[start, end)` sub-range recorded on the
file object (kept here to express that the read ignores it). -/
structure HDF5ChunkState where
  num_halos : Nat
  ppos : Fin 3 → List ℚ
  start? : Option Nat
  stop? : Option Nat

/-- Filling `pos[:, i] = f["particle_position_%s" % ax][()]` for the three
axes into an `np.empty((pcount, 3))` array: succeeds with the row list iff
every dataset has exactly `num_halos` entries, otherwise numpy raises a
shape-mismatch error. -/
def h5_read_datasets (s : HDF5ChunkState) : Except ReadErr (List Vec3) :=
  if ∀ i : Fin 3, (s.ppos i).length = s.num_halos then
    .ok ((List.range s.num_halos).map (fun j => fun i => (s.ppos i).getD j 0))
  else
    .error .broadcast

/-- What one call to `HaloCatalogHDF5File._read_particle_positions`
returns and does to file handles. -/
structure H5ReadResult where
  pos : Except ReadErr (List Vec3)
  opened_own_handle : Bool
  closed_used_handle : Bool
  closed_caller_handle : Bool

/-- `HaloCatalogHDF5File._read_particle_positions`: if the argument `f` is
`None` it opens its own handle and sets `close = True`, otherwise it
reuses the caller's handle with `close = False`; after a successful read
it calls `f.close()` iff `close` (if the dataset read raises, the
exception propagates before the close).  `f?` is `some ()` when the
caller supplied an open handle. -/
def read_particle_positions (s : HDF5ChunkState) (f? : Option Unit) : H5ReadResult :=
  let close := f?.isNone
  match h5_read_datasets s with
  | .error e =>
    { pos := .error e
      opened_own_handle := close
      closed_used_handle := false
      closed_caller_handle := false }
  | .ok pos =>
    { pos := .ok pos
      opened_own_handle := close
      closed_used_handle := close
      closed_caller_handle := close && f?.isSome }

/-! ### `HaloCatalogDataset._is_valid` -/

/-- The top-level attributes of an HDF5 file, post `parse_h5_attr`
(attribute name to parsed string value). -/
structure H5FileAttrs where
  attrs : List (String × String)

/-- `HaloCatalogDataset._is_valid`.  The filesystem is modelled by `fs`
(`none` = the path cannot be opened, in which case `h5py.File` raises).
The suffix test `args[0].endswith(".h5")` happens before any open, so a
non-matching path never touches `fs`. -/
def is_valid (fs : List Char → Option H5FileAttrs) (path : List Char) :
    Except ReadErr Bool :=
  if ('.' :: 'h' :: '5' :: []).isSuffixOf path then
    match fs path with
    | none => .error .io
    | some f =>
      match f.attrs.lookup "data_type" with
      | some v => .ok (v == "halo_catalog")
      | none => .ok false
  else
    .ok false

/-! ### Helper lemmas -/

theorem splitOnChar_ne_nil (c : Char) (l : List Char) : splitOnChar c l ≠ [] := by
  cases l with
  | nil => simp [splitOnChar]
  | cons x xs =>
    simp only [splitOnChar]
    split
    · simp
    · split <;> simp

theorem joinChar_splitOnChar (c : Char) (l : List Char) :
    joinChar c (splitOnChar c l) = l := by
  induction l with
  | nil => rfl
  | cons x xs ih =>
    simp only [splitOnChar]
    cases h : splitOnChar c xs with
    | nil => exact absurd h (splitOnChar_ne_nil c xs)
    | cons hd tl =>
      rw [h] at ih
      by_cases hx : x = c
      · subst hx
        simp only [if_pos rfl, joinChar, List.nil_append]
        rw [ih]
      · simp only [if_neg hx]
        cases tl with
        | nil =>
          simp only [joinChar] at ih ⊢
          rw [ih]
        | cons a b =>
          simp only [joinChar, List.cons_append] at ih ⊢
          rw [ih]

theorem splitOnChar_append_cons (c : Char) (p r : List Char) :
    splitOnChar c (p ++ c :: r) = splitOnChar c p ++ splitOnChar c r := by
  induction p with
  | nil =>
    simp only [List.nil_append, splitOnChar]
    cases h : splitOnChar c r with
    | nil => exact absurd h (splitOnChar_ne_nil c r)
    | cons hd tl => simp
  | cons x xs ih =>
    simp only [List.cons_append, splitOnChar, List.append_eq]
    rw [ih]
    cases h : splitOnChar c xs with
    | nil => exact absurd h (splitOnChar_ne_nil c xs)
    | cons hd tl => by_cases hx : x = c <;> simp [hx, h]

theorem splitOnChar_of_not_mem (c : Char) (l : List Char) (h : c ∉ l) :
    splitOnChar c l = [l] := by
  induction l with
  | nil => rfl
  | cons x xs ih =>
    simp only [List.mem_cons, not_or] at h
    obtain ⟨h1, h2⟩ := h
    have hx : ¬ x = c := fun e => h1 e.symm
    simp [splitOnChar, ih h2, hx]

theorem stemOf_two_dots (p b c : List Char) (hb : '.' ∉ b) (hc : '.' ∉ c) :
    stemOf (p ++ '.' :: (b ++ '.' :: c)) = p := by
  have hsplit : splitOnChar '.' (p ++ '.' :: (b ++ '.' :: c))
      = splitOnChar '.' p ++ [b, c] := by
    rw [splitOnChar_append_cons, splitOnChar_append_cons,
        splitOnChar_of_not_mem _ _ hb, splitOnChar_of_not_mem _ _ hc]
    simp
  simp only [stemOf, rsplit2, hsplit]
  by_cases hlen : (splitOnChar '.' p ++ [b, c]).length ≤ 3
  · rw [if_pos hlen]
    have h1 : (splitOnChar '.' p ++ [b, c]).dropLast.dropLast = splitOnChar '.' p := by
      have h2 : splitOnChar '.' p ++ [b, c] = (splitOnChar '.' p ++ [b]) ++ [c] := by
        simp
      rw [h2, List.dropLast_concat, List.dropLast_concat]
    rw [h1, joinChar_splitOnChar]
  · rw [if_neg hlen]
    have hn : (splitOnChar '.' p ++ [b, c]).length - 2 = (splitOnChar '.' p).length := by
      simp
    rw [hn, List.take_left, List.drop_left]
    simp only [List.dropLast, joinChar]
    rw [joinChar_splitOnChar]

theorem qmod_eq_mul_fract (x w : ℚ) (hw : w ≠ 0) :
    qmod x w = w * Int.fract (x / w) := by
  unfold qmod Int.fract
  field_simp

theorem qmod_nonneg (x w : ℚ) (hw : 0 < w) : 0 ≤ qmod x w := by
  rw [qmod_eq_mul_fract x w hw.ne']
  exact mul_nonneg hw.le (Int.fract_nonneg _)

theorem qmod_lt (x w : ℚ) (hw : 0 < w) : qmod x w < w := by
  rw [qmod_eq_mul_fract x w hw.ne']
  calc w * Int.fract (x / w) < w * 1 :=
        (mul_lt_mul_left hw).mpr (Int.fract_lt_one _)
    _ = w := mul_one w

theorem qmod_add_int_mul (x w : ℚ) (k : ℤ) (hw : w ≠ 0) :
    qmod (x + k * w) w = qmod x w := by
  rw [qmod_eq_mul_fract _ _ hw, qmod_eq_mul_fract _ _ hw]
  have h : (x + k * w) / w = x / w + k := by
    field_simp
  rw [h, Int.fract_add_int]

theorem map_getD_range (l : List ℚ) :
    (List.range l.length).map (fun j => l.getD j 0) = l := by
  apply List.ext_getElem
  · simp
  · intro i h1 h2
    simp [List.getD_eq_getElem?_getD, List.getElem?_eq_getElem h2]

/-! ### Claim theorems -/

/-- C8: `_parse_parameter_file` derives the filename template by stripping
the last two dot-separated components of the parameter filename: for any
filename of shape `p ++ "." ++ b ++ "." ++ c` whose last two components
`b`, `c` contain no dot, the stem is `p` and the filename template is
`p ++ ".%(num)s.h5"` (so `run.3.h5` gives stem `run` and template
`run.%(num)s.h5`). -/
theorem C8_filename_template_derivation (p b c : List Char)
    (hb : '.' ∉ b) (hc : '.' ∉ c) :
    stemOf (p ++ '.' :: (b ++ '.' :: c)) = p ∧
    filename_template_of (p ++ '.' :: (b ++ '.' :: c))
      = p ++ (".%(num)s.h5").data := by
  refine ⟨stemOf_two_dots p b c hb hc, ?_⟩
  unfold filename_template_of
  rw [stemOf_two_dots p b c hb hc]

/-- C8 witness: the derivation instantiated at the spec's example
`run.3.h5`. -/
theorem C8_filename_template_derivation_witness :
    stemOf (("run.3.h5").data) = ("run").data ∧
    filename_template_of (("run.3.h5").data) = ("run.%(num)s.h5").data := by
  have h := C8_filename_template_derivation (("run").data) (("3").data)
    (("h5").data) (by decide) (by decide)
  have e : ("run.3.h5").data
      = ("run").data ++ '.' :: ((("3").data) ++ '.' :: (("h5").data)) := by
    decide
  rw [e]
  exact ⟨h.1, by rw [h.2]; decide⟩

/-- C2: `_setup_filenames` with `file_count > 1` constructs exactly
`file_count` files, with ids exactly `0..file_count-1`, each with path
equal to the template substituted with its id and `range = None`; with
`file_count == 1` it constructs exactly one file whose path is the
originally supplied parameter filename, with id 0 and `range = None`. -/
theorem C2_setup_filenames (ds : DatasetState)
    (counts : List Char → List (String × Nat)) :
    (ds.file_count > 1 →
      (setup_filenames ds counts).data_files.length = ds.file_count ∧
      (setup_filenames ds counts).data_files.map (fun d => d.file_id)
        = List.range ds.file_count ∧
      ∀ d ∈ (setup_filenames ds counts).data_files,
        d.filename = pyFormatNum ds.filename_template d.file_id ∧
        d.range = none) ∧
    (ds.file_count = 1 →
      (setup_filenames ds counts).data_files
        = [{ filename := ds.parameter_filename
             file_id := 0
             range := none
             total_particles := counts ds.parameter_filename }]) := by
  constructor
  · intro h
    simp only [setup_filenames, if_pos h]
    refine ⟨by simp, ?_, ?_⟩
    · rw [List.map_map]
      have e : ((fun (d : DataFile) => d.file_id) ∘ fun i =>
          ({ filename := pyFormatNum ds.filename_template i
             file_id := i
             range := none
             total_particles := counts (pyFormatNum ds.filename_template i) } : DataFile))
          = fun i => i := rfl
      rw [e]
      simp
    · intro d hd
      simp only [List.mem_map, List.mem_range] at hd
      obtain ⟨i, hi, rfl⟩ := hd
      exact ⟨rfl, rfl⟩
  · intro h
    have h1 : ¬ ds.file_count > 1 := by omega
    simp [setup_filenames, if_neg h1]

/-- C2 witness: the two branches instantiated at a three-chunk dataset and
a one-chunk dataset. -/
theorem C2_setup_filenames_witness :
    ((3 : Nat) > 1 ∧
      (setup_filenames ⟨("a.0.h5").data, ("a.%(num)s.h5").data, 3⟩
          (fun _ => [("halos", 2)])).data_files.map (fun d => d.file_id)
        = List.range 3) ∧
    ((1 : Nat) = 1 ∧
      (setup_filenames ⟨("b.0.h5").data, ("b.%(num)s.h5").data, 1⟩
          (fun _ => [("halos", 5)])).data_files
        = [{ filename := ("b.0.h5").data
             file_id := 0
             range := none
             total_particles := [("halos", 5)] }]) :=
  ⟨⟨by decide,
    ((C2_setup_filenames ⟨("a.0.h5").data, ("a.%(num)s.h5").data, 3⟩
        (fun _ => [("halos", 2)])).1 (by decide)).2.1⟩,
   ⟨rfl,
    (C2_setup_filenames ⟨("b.0.h5").data, ("b.%(num)s.h5").data, 1⟩
        (fun _ => [("halos", 5)])).2 rfl⟩⟩

/-- C9: when `file_count = 0` the else-branch of `_setup_filenames` still
runs, so exactly one file pointing at the parameter filename with id 0 is
constructed and `data_files` is never empty. -/
theorem C9_setup_filenames_zero (ds : DatasetState)
    (counts : List Char → List (String × Nat)) (h : ds.file_count = 0) :
    (setup_filenames ds counts).data_files
      = [{ filename := ds.parameter_filename
           file_id := 0
           range := none
           total_particles := counts ds.parameter_filename }] ∧
    (setup_filenames ds counts).data_files.length = 1 := by
  have h1 : ¬ ds.file_count > 1 := by omega
  simp [setup_filenames, if_neg h1]

/-- C9 witness: a dataset with no matching sibling files still yields one
data file. -/
theorem C9_setup_filenames_zero_witness :
    (0 : Nat) = 0 ∧
    ((setup_filenames ⟨("c.0.h5").data, ("c.%(num)s.h5").data, 0⟩
        (fun _ => [])).data_files
      = [{ filename := ("c.0.h5").data
           file_id := 0
           range := none
           total_particles := [] }] ∧
     (setup_filenames ⟨("c.0.h5").data, ("c.%(num)s.h5").data, 0⟩
        (fun _ => [])).data_files.length = 1) :=
  ⟨rfl, C9_setup_filenames_zero ⟨("c.0.h5").data, ("c.%(num)s.h5").data, 0⟩
    (fun _ => []) rfl⟩

/-- C3: after `_setup_filenames`, the index's `total_particles` equals
the sum over all constructed chunk files of the sum of that chunk's
per-type particle counts; unfolded over each branch of the construction,
it equals the sum over the chunk ids (resp. the single parameter file) of
the per-type count sums. -/
theorem C3_total_particles (ds : DatasetState)
    (counts : List Char → List (String × Nat)) :
    (setup_filenames ds counts).total_particles
      = (((setup_filenames ds counts).data_files).map
          (fun d => (d.total_particles.map Prod.snd).sum)).sum ∧
    (ds.file_count > 1 →
      (setup_filenames ds counts).total_particles
        = ((List.range ds.file_count).map (fun i =>
            ((counts (pyFormatNum ds.filename_template i)).map Prod.snd).sum)).sum) ∧
    (ds.file_count ≤ 1 →
      (setup_filenames ds counts).total_particles
        = ((counts ds.parameter_filename).map Prod.snd).sum) := by
  refine ⟨rfl, ?_, ?_⟩
  · intro h
    simp only [setup_filenames, if_pos h]
    rw [List.map_map]
    rfl
  · intro h
    have h1 : ¬ ds.file_count > 1 := by omega
    simp [setup_filenames, if_neg h1]

/-- C3 witness: the per-chunk count sums add up for a two-chunk dataset. -/
theorem C3_total_particles_witness :
    (2 : Nat) > 1 ∧
    (setup_filenames ⟨("d.0.h5").data, ("d.%(num)s.h5").data, 2⟩
        (fun _ => [("halos", 3), ("stars", 4)])).total_particles
      = ((List.range 2).map (fun i =>
          (((fun _ : List Char => [("halos", 3), ("stars", 4)])
              (pyFormatNum (("d.%(num)s.h5").data) i)).map Prod.snd).sum)).sum :=
  ⟨by decide,
   (C3_total_particles ⟨("d.0.h5").data, ("d.%(num)s.h5").data, 2⟩
      (fun _ => [("halos", 3), ("stars", 4)])).2.1 (by decide)⟩

theorem get_particle_positions_rows (tp : List (String × Nat)) (ptype : String)
    (start? stop? : Option Nat) (dle dw : Vec3) (raw : Except ReadErr (List Vec3))
    (rows : List Vec3)
    (h : get_particle_positions tp start? stop? dle dw raw ptype = .ok (some rows)) :
    ∃ pos : List Vec3, rows = pos.map (correctPeriodic dle dw) := by
  unfold get_particle_positions at h
  cases hl : tp.lookup ptype with
  | none =>
    simp only [hl] at h
    exact (Except.noConfusion h)
  | some pcount =>
    simp only [hl] at h
    by_cases h0 : pcount = 0
    · rw [if_pos h0] at h; simp at h
    · rw [if_neg h0] at h
      cases raw with
      | error e => simp at h
      | ok pos =>
        cases start? <;> cases stop? <;>
          (simp only [Except.ok.injEq, Option.some.injEq] at h) <;>
          exact ⟨_, h.symm⟩

/-- C1: every coordinate returned by `_get_particle_positions` satisfies
`domain_left_edge[axis] ≤ x < domain_left_edge[axis] + domain_width[axis]`
when every domain width is positive, and the periodic correction maps a
raw coordinate shifted by an arbitrary integer multiple of the domain
width to the same output (wrap-around, not clamping). -/
theorem C1_positions_in_domain (tp : List (String × Nat)) (ptype : String)
    (start? stop? : Option Nat) (dle dw : Vec3)
    (raw : Except ReadErr (List Vec3)) (rows : List Vec3)
    (hw : ∀ i, 0 < dw i)
    (h : get_particle_positions tp start? stop? dle dw raw ptype = .ok (some rows)) :
    (∀ p ∈ rows, ∀ i, dle i ≤ p i ∧ p i < dle i + dw i) ∧
    (∀ (q : Vec3) (k : Fin 3 → ℤ),
      correctPeriodic dle dw (fun i => q i + (k i : ℚ) * dw i)
        = correctPeriodic dle dw q) := by
  constructor
  · intro p hp i
    obtain ⟨pos, rfl⟩ :=
      get_particle_positions_rows tp ptype start? stop? dle dw raw rows h
    simp only [List.mem_map] at hp
    obtain ⟨q, hq, rfl⟩ := hp
    unfold correctPeriodic
    constructor
    · have h1 := qmod_nonneg (q i - dle i) (dw i) (hw i)
      linarith
    · have h2 := qmod_lt (q i - dle i) (dw i) (hw i)
      linarith
  · intro q k
    funext i
    unfold correctPeriodic
    have e : q i + (k i : ℚ) * dw i - dle i = q i - dle i + (k i : ℚ) * dw i := by
      ring
    rw [e, qmod_add_int_mul _ _ _ (hw i).ne']

/-- C1 witness: a unit domain `[0, 1)` per axis and one raw position at
`3/2`, which the correction wraps into the domain. -/
theorem C1_positions_in_domain_witness :
    (∀ i : Fin 3, (0:ℚ) < (fun _ : Fin 3 => (1:ℚ)) i) ∧
    (get_particle_positions [("halos", 2)] none none (fun _ : Fin 3 => (0:ℚ))
        (fun _ : Fin 3 => (1:ℚ))
        (.ok [fun _ : Fin 3 => (3:ℚ)/2]) "halos"
      = .ok (some (([fun _ : Fin 3 => (3:ℚ)/2]).map
          (correctPeriodic (fun _ : Fin 3 => (0:ℚ)) (fun _ : Fin 3 => (1:ℚ)))))) ∧
    ((∀ p ∈ ([fun _ : Fin 3 => (3:ℚ)/2]).map
          (correctPeriodic (fun _ : Fin 3 => (0:ℚ)) (fun _ : Fin 3 => (1:ℚ))),
        ∀ i, (fun _ : Fin 3 => (0:ℚ)) i ≤ p i ∧
          p i < (fun _ : Fin 3 => (0:ℚ)) i + (fun _ : Fin 3 => (1:ℚ)) i) ∧
     (∀ (q : Vec3) (k : Fin 3 → ℤ),
        correctPeriodic (fun _ : Fin 3 => (0:ℚ)) (fun _ : Fin 3 => (1:ℚ))
            (fun i => q i + (k i : ℚ) * (fun _ : Fin 3 => (1:ℚ)) i)
          = correctPeriodic (fun _ : Fin 3 => (0:ℚ))
              (fun _ : Fin 3 => (1:ℚ)) q)) :=
  ⟨fun _ => by norm_num, rfl,
   C1_positions_in_domain [("halos", 2)] "halos" none none _ _
     (.ok [fun _ : Fin 3 => (3:ℚ)/2]) _
     (fun _ => by norm_num) rfl⟩

/-- C4: `_get_particle_positions` returns the absence sentinel `None`
exactly when the recorded count for the requested type is zero, and when
the count is nonzero and the raw read succeeds it returns an array. -/
theorem C4_zero_count_sentinel (tp : List (String × Nat)) (ptype : String)
    (start? stop? : Option Nat) (dle dw : Vec3) (pcount : Nat)
    (hc : tp.lookup ptype = some pcount) :
    (∀ raw, get_particle_positions tp start? stop? dle dw raw ptype
        = .ok none ↔ pcount = 0) ∧
    (pcount ≠ 0 → ∀ pos : List Vec3, ∃ rows : List Vec3,
      get_particle_positions tp start? stop? dle dw (.ok pos) ptype
        = .ok (some rows)) := by
  constructor
  · intro raw
    unfold get_particle_positions
    simp only [hc]
    by_cases h0 : pcount = 0
    · simp [h0]
    · rw [if_neg h0]
      cases raw with
      | error e => simp [h0]
      | ok pos => cases start? <;> cases stop? <;> simp [h0]
  · intro h0 pos
    unfold get_particle_positions
    simp only [hc]
    rw [if_neg h0]
    cases start? <;> cases stop? <;> exact ⟨_, rfl⟩

/-- C4 witness: a chunk that records zero halos returns `None` for every
raw-read outcome, even a failing one. -/
theorem C4_zero_count_sentinel_witness :
    ([("halos", 0)].lookup "halos" = some 0) ∧
    ((∀ raw, get_particle_positions [("halos", 0)] none none
        (fun _ : Fin 3 => (0:ℚ)) (fun _ : Fin 3 => (1:ℚ)) raw "halos"
        = .ok none ↔ (0:Nat) = 0) ∧
     ((0:Nat) ≠ 0 → ∀ pos : List Vec3, ∃ rows : List Vec3,
       get_particle_positions [("halos", 0)] none none
          (fun _ : Fin 3 => (0:ℚ)) (fun _ : Fin 3 => (1:ℚ)) (.ok pos) "halos"
         = .ok (some rows))) :=
  ⟨rfl, C4_zero_count_sentinel [("halos", 0)] "halos" none none
    (fun _ : Fin 3 => (0:ℚ)) (fun _ : Fin 3 => (1:ℚ)) 0 rfl⟩

/-- C10: `_get_particle_positions` applies the `[start, end)` restriction
iff both bounds are set: with either bound `None` all rows are corrected
and returned, and with both set the periodic correction is applied to the
sliced rows (correction after slicing). -/
theorem C10_range_restriction (tp : List (String × Nat)) (ptype : String)
    (dle dw : Vec3) (pcount : Nat)
    (hc : tp.lookup ptype = some pcount) (h0 : pcount ≠ 0) :
    (∀ (start? stop? : Option Nat) (pos : List Vec3),
      start? = none ∨ stop? = none →
      get_particle_positions tp start? stop? dle dw (.ok pos) ptype
        = .ok (some (pos.map (correctPeriodic dle dw)))) ∧
    (∀ (si ei : Nat) (pos : List Vec3),
      get_particle_positions tp (some si) (some ei) dle dw (.ok pos) ptype
        = .ok (some (((pos.take ei).drop si).map (correctPeriodic dle dw)))) := by
  constructor
  · rintro start? stop? pos (rfl | rfl)
    · unfold get_particle_positions
      simp only [hc]
      rw [if_neg h0]
    · unfold get_particle_positions
      simp only [hc]
      rw [if_neg h0]
  · intro si ei pos
    unfold get_particle_positions
    simp only [hc]
    rw [if_neg h0]

/-- C10 witness: with only the end bound set no restriction happens, and
with both bounds set the slice `[1, 2)` is taken before correction. -/
theorem C10_range_restriction_witness :
    ([("halos", 3)].lookup "halos" = some 3) ∧ (3 : Nat) ≠ 0 ∧
    ((∀ (start? stop? : Option Nat) (pos : List Vec3),
      start? = none ∨ stop? = none →
      get_particle_positions [("halos", 3)] start? stop?
          (fun _ : Fin 3 => (0:ℚ)) (fun _ : Fin 3 => (1:ℚ)) (.ok pos) "halos"
        = .ok (some (pos.map (correctPeriodic (fun _ : Fin 3 => (0:ℚ))
            (fun _ : Fin 3 => (1:ℚ)))))) ∧
     (∀ (si ei : Nat) (pos : List Vec3),
      get_particle_positions [("halos", 3)] (some si) (some ei)
          (fun _ : Fin 3 => (0:ℚ)) (fun _ : Fin 3 => (1:ℚ)) (.ok pos) "halos"
        = .ok (some (((pos.take ei).drop si).map
            (correctPeriodic (fun _ : Fin 3 => (0:ℚ))
              (fun _ : Fin 3 => (1:ℚ))))))) :=
  ⟨rfl, by decide,
   C10_range_restriction [("halos", 3)] "halos"
     (fun _ : Fin 3 => (0:ℚ)) (fun _ : Fin 3 => (1:ℚ)) 3 rfl (by decide)⟩

/-- C5: `HaloCatalogHDF5File._read_particle_positions` never closes a
caller-provided handle, and on every call path that returns it closes the
handle it used iff it opened that handle itself (iff the `f` argument was
`None`). -/
theorem C5_handle_ownership (s : HDF5ChunkState) (f? : Option Unit) :
    (read_particle_positions s f?).closed_caller_handle = false ∧
    (∀ pos, (read_particle_positions s f?).pos = .ok pos →
      (read_particle_positions s f?).closed_used_handle = f?.isNone ∧
      (read_particle_positions s f?).opened_own_handle = f?.isNone) := by
  unfold read_particle_positions
  cases h : h5_read_datasets s with
  | error e => simp [h]
  | ok pos =>
    cases f? with
    | none => simp [h]
    | some u => simp [h]

/-- C5 witness: a caller-provided handle on a readable one-halo chunk is
not closed; the function reports it did not open its own handle. -/
theorem C5_handle_ownership_witness :
    (read_particle_positions ⟨1, (fun _ => [0]), none, none⟩
        (some ())).closed_caller_handle = false ∧
    ((read_particle_positions ⟨1, (fun _ => [0]), none, none⟩
        (some ())).closed_used_handle = (some () : Option Unit).isNone ∧
     (read_particle_positions ⟨1, (fun _ => [0]), none, none⟩
        (some ())).opened_own_handle = (some () : Option Unit).isNone) :=
  ⟨(C5_handle_ownership ⟨1, (fun _ => [0]), none, none⟩ (some ())).1,
   (C5_handle_ownership ⟨1, (fun _ => [0]), none, none⟩ (some ())).2
     ((List.range 1).map (fun j => fun i =>
        ((fun _ : Fin 3 => [(0:ℚ)]) i).getD j 0))
     (by simp [read_particle_positions, h5_read_datasets])⟩

/-- C6: `HaloCatalogHDF5File._read_particle_positions` returns an N-by-3
array with N the header's `num_halos`, whose column `i` is the full
contents of the dataset `particle_position_x`/`_y`/`_z`, and the result
does not depend on the chunk's `[start, end)` sub-range. -/
theorem C6_read_full_chunk (s : HDF5ChunkState) (f? : Option Unit)
    (hlen : ∀ i : Fin 3, (s.ppos i).length = s.num_halos) :
    ∃ rows : List Vec3,
      (read_particle_positions s f?).pos = .ok rows ∧
      rows.length = s.num_halos ∧
      (∀ i : Fin 3, rows.map (fun r => r i) = s.ppos i) ∧
      (∀ t : HDF5ChunkState, t.num_halos = s.num_halos → t.ppos = s.ppos →
        (read_particle_positions t f?).pos = .ok rows) := by
  have hd : h5_read_datasets s
      = .ok ((List.range s.num_halos).map (fun j => fun i => (s.ppos i).getD j 0)) := by
    unfold h5_read_datasets
    rw [if_pos hlen]
  refine ⟨(List.range s.num_halos).map (fun j => fun i => (s.ppos i).getD j 0),
    ?_, by simp, ?_, ?_⟩
  · unfold read_particle_positions
    rw [hd]
  · intro i
    rw [List.map_map]
    have e : ((fun (r : Vec3) => r i) ∘ fun j => fun i => (s.ppos i).getD j 0)
        = fun j => (s.ppos i).getD j 0 := rfl
    rw [e, ← hlen i, map_getD_range]
  · intro t h1 h2
    have hd' : h5_read_datasets t
        = .ok ((List.range s.num_halos).map (fun j => fun i => (s.ppos i).getD j 0)) := by
      unfold h5_read_datasets
      rw [h1, h2, if_pos hlen]
    unfold read_particle_positions
    rw [hd']

/-- C6 witness: a two-halo chunk with distinct per-axis datasets and a
sub-range set on the file; the read returns both rows and ignores the
range. -/
theorem C6_read_full_chunk_witness :
    (∀ i : Fin 3, ((fun k : Fin 3 => [(k:ℚ), 10 + k]) i).length = 2) ∧
    (∃ rows : List Vec3,
      (read_particle_positions ⟨2, (fun k : Fin 3 => [(k:ℚ), 10 + k]), some 0, some 1⟩
          none).pos = .ok rows ∧
      rows.length = 2 ∧
      (∀ i : Fin 3, rows.map (fun r => r i) = (fun k : Fin 3 => [(k:ℚ), 10 + k]) i) ∧
      (∀ t : HDF5ChunkState, t.num_halos = 2 →
        t.ppos = (fun k : Fin 3 => [(k:ℚ), 10 + k]) →
        (read_particle_positions t none).pos = .ok rows)) :=
  ⟨fun _ => by simp,
   C6_read_full_chunk ⟨2, (fun k : Fin 3 => [(k:ℚ), 10 + k]), some 0, some 1⟩
     none (fun _ => by simp)⟩

/-- C7: `_is_valid` returns false for every path not ending in `.h5`
without touching the filesystem (a nonexistent non-suffix path gives
false, not an error), and for a suffix-matching readable file it returns
true iff the parsed `data_type` attribute equals `"halo_catalog"` (absent
or unequal gives false). -/
theorem C7_is_valid (fs : List Char → Option H5FileAttrs) (path : List Char) :
    (¬ (('.' :: 'h' :: '5' :: []).isSuffixOf path = true) →
      is_valid fs path = .ok false) ∧
    (∀ f : H5FileAttrs, ('.' :: 'h' :: '5' :: []).isSuffixOf path = true →
      fs path = some f →
      (is_valid fs path = .ok true ↔
        f.attrs.lookup "data_type" = some "halo_catalog") ∧
      (f.attrs.lookup "data_type" ≠ some "halo_catalog" →
        is_valid fs path = .ok false)) := by
  constructor
  · intro hs
    unfold is_valid
    rw [if_neg hs]
  · intro f hs hf
    unfold is_valid
    rw [if_pos hs, hf]
    cases hl : f.attrs.lookup "data_type" with
    | none => simp [hl]
    | some v => simp [hl]

/-- C7 witness: a non-`.h5` path is false on an empty filesystem (no open
attempted, no error), and a `.h5` file whose `data_type` is
`"halo_catalog"` is valid. -/
theorem C7_is_valid_witness :
    (¬ (('.' :: 'h' :: '5' :: []).isSuffixOf (("a.txt").data) = true) ∧
      is_valid (fun _ => none) (("a.txt").data) = .ok false) ∧
    (is_valid (fun _ => some ⟨[("data_type", "halo_catalog")]⟩) (("a.h5").data)
        = .ok true ↔
      (H5FileAttrs.mk [("data_type", "halo_catalog")]).attrs.lookup "data_type"
        = some "halo_catalog") :=
  ⟨⟨by decide,
    (C7_is_valid (fun _ => none) (("a.txt").data)).1 (by decide)⟩,
   ((C7_is_valid (fun _ => some ⟨[("data_type", "halo_catalog")]⟩)
       (("a.h5").data)).2 ⟨[("data_type", "halo_catalog")]⟩ (by decide) rfl).1⟩

end HaloCatalog
